import Mathlib

/-!
# Verification of the `oldmusaserver` request-quota subsystem

Shallow embedding of `src/web/quota.rs`, `src/web/graphql_schema.rs`
(`Context::check_request_balance`, `Context::spend_request_coins`) and the
quota-commit step of `src/web/graphql_service.rs::graphql`.

Modelling conventions:
* `Instant` is a number of milliseconds (`Nat`).  `Instant::duration_since`
  saturates to zero when the argument is later, which matches `Nat`
  subtraction.
* Rust machine integers are modelled as `Nat` (unsigned) / `Int` (signed)
  together with explicit wrapping at every point where the Rust program
  narrows (`as i64`, `as u64`) or where a fixed-width operation can wrap
  (release-mode two's-complement semantics).  The `as` casts wrap in every
  Rust build profile.
* A Rust panic (division by zero in `get_balance_wait`) is modelled by
  `Option`: `none` is a panic.
* `HashMap` / `PriorityQueue` are modelled as functions `IdType → Option _`;
  the `priority_queue` crate keeps at most one priority per key and `push`
  overwrites it.
-/

namespace Quota

/-- Models `IdType = i32` from `src/models.rs`; only equality of ids matters here. -/
abbrev IdType := Int

/-- Two's-complement wrap of an unbounded integer into `i64`
(the semantics of Rust's `as i64` cast). -/
def wrapI64 (x : Int) : Int := (x + 2 ^ 63) % 2 ^ 64 - 2 ^ 63

/-- Two's-complement wrap into `i128` (release-mode `i128` addition). -/
def wrapI128 (x : Int) : Int := (x + 2 ^ 127) % 2 ^ 128 - 2 ^ 127

/-- Wrap into `u64` (the semantics of Rust's `as u64` cast). -/
def wrapU64 (x : Nat) : Nat := x % 2 ^ 64

/-- Wrap into `u128` (release-mode `u128` multiplication). -/
def wrapU128 (x : Nat) : Nat := x % 2 ^ 128

/-- Rust's `as i128` cast applied to a `u128` value. -/
def u128ToI128 (x : Nat) : Int := if x < 2 ^ 127 then (x : Int) else (x : Int) - 2 ^ 128

/-- Predicate: `x` lies in the value range of `i64`. -/
def i64Range (x : Int) : Prop := -(2 ^ 63) ≤ x ∧ x < 2 ^ 63

instance (x : Int) : Decidable (i64Range x) := by unfold i64Range; infer_instance

/-- Rust `get_accumulated_balance` (src/web/quota.rs:10-14):
`(passed.as_millis() * balance_per_second) / 1000` in `u128` arithmetic.
`passed` is the elapsed time in milliseconds. -/
def get_accumulated_balance (passed : Nat) (balance_per_second : Nat) : Nat :=
  wrapU128 (passed * balance_per_second) / 1000

/-- Rust `get_balance_wait` (src/web/quota.rs:16-20):
`Duration::from_millis(((1000 * bal) / balance_per_sec) as u64)`.
The result is the duration in milliseconds; division by zero panics (`none`). -/
def get_balance_wait (bal : Nat) (balance_per_sec : Nat) : Option Nat :=
  if balance_per_sec = 0 then none
  else some (wrapU64 (wrapU128 (1000 * bal) / balance_per_sec))

/-- Rust `UserData` (src/web/quota.rs:86-89): stored per-user ledger entry. -/
structure UserData where
  balance : Int
  last_balance_update : Nat
deriving Repr, DecidableEq

/-- Rust `Data` (src/web/quota.rs:91-96): the ledger state behind the mutex. -/
structure Data where
  max_balance : Int
  balance_per_second : Nat
  users : IdType → Option UserData
  next_expiration : IdType → Option Nat

/-- Rust `Data::new` (src/web/quota.rs:99-106). -/
def Data.new (max_balance : Int) (balance_per_second : Nat) : Data :=
  { max_balance := max_balance
    balance_per_second := balance_per_second
    users := fun _ => none
    next_expiration := fun _ => none }

/-- Rust `Data::replace_balance` (src/web/quota.rs:112-127).  On the storing
branch the Rust code computes
`get_balance_wait((max_balance as i128 - new_balance as i128) as u128, ...)`;
there `max_balance - new_balance > 0`, so the `as u128` cast is `Int.toNat`.
`none` models the division-by-zero panic inside `get_balance_wait`. -/
def Data.replace_balance (d : Data) (now : Nat) (user_id : IdType)
    (new_balance : Int) : Option (Data × Int) :=
  if d.max_balance ≤ new_balance then
    some ({ d with users := fun u => if u = user_id then none else d.users u },
          d.max_balance)
  else
    match get_balance_wait (d.max_balance - new_balance).toNat d.balance_per_second with
    | none => none
    | some wait_time =>
      some ({ d with
                users := fun u =>
                  if u = user_id then some ⟨new_balance, now⟩ else d.users u
                next_expiration := fun u =>
                  if u = user_id then some (now + wait_time) else d.next_expiration u },
            new_balance)

/-- Rust `Data::add_balance` (src/web/quota.rs:129-142).  The Rust code computes
`user.balance as i128 + added_bal as i128`, then `current + balance_diff as i128`,
then narrows with `as i64` before delegating to `replace_balance`. -/
def Data.add_balance (d : Data) (now : Nat) (user_id : IdType)
    (balance_diff : Int) : Option (Data × Int) :=
  let current_balance : Int :=
    match d.users user_id with
    | some u =>
        let passed := now - u.last_balance_update
        let added_bal := get_accumulated_balance passed d.balance_per_second
        wrapI128 (u.balance + u128ToI128 added_bal)
    | none => d.max_balance
  let new_balance := wrapI128 (current_balance + balance_diff)
  d.replace_balance now user_id (wrapI64 new_balance)

/-- Rust `Data::get_balance` (src/web/quota.rs:108-110): `add_balance(now, user, 0)`.
This is also the scheduler's forced recomputation (src/web/quota.rs:43). -/
def Data.get_balance (d : Data) (now : Nat) (user_id : IdType) : Option (Data × Int) :=
  d.add_balance now user_id 0

/-- Rust `init` (src/web/quota.rs:177-191): builds the ledger state and starts the
actor; the returned handle wraps exactly `Data::new(max_balance, balance_per_second)`.
No validation of either argument is performed. -/
def init (max_balance : Int) (balance_per_second : Nat) : Data :=
  Data.new max_balance balance_per_second

end Quota

namespace Schema

open Quota (IdType wrapI64)

/-- Rust `PermissionType` (src/models.rs:13-16). -/
inductive PermissionType where
  | User
  | Admin
deriving Repr, DecidableEq

/-- The caller identity as seen by the quota logic.  `permission` is the
result of `User::get_permission()`; that accessor has no body under `src/`
(only its call site at src/web/graphql_schema.rs:95), so the permission is
modelled as a stored `PermissionType` field. -/
structure AuthUser where
  id : IdType
  permission : PermissionType
deriving Repr, DecidableEq

/-- Rust `ServiceError` variants reachable from `check_request_balance`. -/
inductive ServiceError where
  | TooManyRequests
deriving Repr, DecidableEq

/-- Rust `Context::check_request_balance` (src/web/graphql_schema.rs:92-106):
`None` and `Some(admin)` return `Ok` early; otherwise the local counter is
tested against zero. -/
def check_request_balance (user : Option AuthUser) (rem_coins : Int) :
    Except ServiceError Unit :=
  match user with
  | none => .ok ()
  | some x =>
    if x.permission = PermissionType.Admin then .ok ()
    else if rem_coins ≤ 0 then .error .TooManyRequests
    else .ok ()

/-- Rust `Context::spend_request_coins` (src/web/graphql_schema.rs:88-90):
`fetch_sub` on an `AtomicI64`, i.e. wrapping `i64` subtraction. -/
def spend_request_coins (rem_coins : Int) (amount : Int) : Int :=
  wrapI64 (rem_coins - amount)

/-- Rust `Context::raw_user_id` (src/web/graphql_schema.rs:64-66). -/
def raw_user_id (user : Option AuthUser) : Option IdType :=
  user.map AuthUser.id

/-- The quota-commit step of `graphql` (src/web/graphql_service.rs:41-47):
if `req_quota != final_coins` and both a quota bank and a user id are
present, `add_quota_balance(now, user, final_coins - req_quota)` is called.
The result is the `(user_id, diff)` of that call, `none` when no call is
made.  The `i64` subtraction is wrapping. -/
def commit_quota_call (bank_present : Bool) (user : Option AuthUser)
    (req_quota final_coins : Int) : Option (IdType × Int) :=
  if req_quota = final_coins then none
  else
    match bank_present, raw_user_id user with
    | true, some uid => some (uid, wrapI64 (final_coins - req_quota))
    | _, _ => none

end Schema

namespace Quota

/-! ## Exact-arithmetic reference semantics

`currentExact` is the unbounded-integer value of the local
`current_balance` in `Data::add_balance`; `timeToFullCeil` is the
rounded-up time-to-full formula that the specification ascribes to
`get_balance_wait`. -/

/-- Unbounded-integer value of `current_balance` in `Data::add_balance`:
`stored_balance + floor(elapsed_ms * refill_rate / 1000)`, or `max_balance`
for an absent entry.  No clamping and no narrowing. -/
def currentExact (d : Data) (now : Nat) (u : IdType) : Int :=
  match d.users u with
  | some e =>
      e.balance +
        ((now - e.last_balance_update) * d.balance_per_second / 1000 : Nat)
  | none => d.max_balance

/-- Formula `ceil(1000 * (max_balance - new) / refill_rate)` in milliseconds — the
time-to-full formula as the specification states it (rounded up). -/
def timeToFullCeil (max_balance v : Int) (rate : Nat) : Nat :=
  (1000 * (max_balance - v).toNat + rate - 1) / rate

/-- Operation `AddBalance` as the specification words it: `current` is clamped to
`max_balance` BEFORE the delta is applied, then
`ReplaceBalance(now, user, current + delta)` — written with exact
arithmetic, for comparison with `Data.add_balance`. -/
def addBalanceClampBefore (d : Data) (now : Nat) (u : IdType) (δ : Int) :
    Option (Data × Int) :=
  d.replace_balance now u (min (currentExact d now u) d.max_balance + δ)

/-- A user has an entry in the ledger map only while that entry's stored
balance is strictly below `max_balance`. -/
def EntryInv (d : Data) : Prop :=
  ∀ u e, d.users u = some e → e.balance < d.max_balance

/-! ## Concrete ledger states used in counterexamples and witnesses -/

/-- max 100, rate 1000 coins/s, user 0 stored at balance 50, updated at 0 ms. -/
def dHalf : Data :=
  { max_balance := 100
    balance_per_second := 1000
    users := fun u => if u = 0 then some ⟨50, 0⟩ else none
    next_expiration := fun _ => none }

/-- max 1000, rate 1000 coins/s, user 0 stored at balance 0, updated at 0 ms. -/
def dZero : Data :=
  { max_balance := 1000
    balance_per_second := 1000
    users := fun u => if u = 0 then some ⟨0, 0⟩ else none
    next_expiration := fun _ => none }

/-- max 100, rate 1000 coins/s, user 0 stored at balance 0, updated at 0 ms. -/
def dSmallMax : Data :=
  { max_balance := 100
    balance_per_second := 1000
    users := fun u => if u = 0 then some ⟨0, 0⟩ else none
    next_expiration := fun _ => none }

/-- max 100, rate 1000 coins/s, user 0 stored at balance 5, updated at 0 ms. -/
def dSmallMax5 : Data :=
  { max_balance := 100
    balance_per_second := 1000
    users := fun u => if u = 0 then some ⟨5, 0⟩ else none
    next_expiration := fun _ => none }

/-! ## Wrap-identity lemmas -/

theorem wrapI64_eq_self {x : Int} (h : i64Range x) : wrapI64 x = x := by
  obtain ⟨h1, h2⟩ := h
  unfold wrapI64
  have e : (2 : Int) ^ 64 = 2 ^ 63 + 2 ^ 63 := by norm_num
  rw [Int.emod_eq_of_lt (by linarith) (by linarith)]
  ring

theorem wrapI128_eq_self {x : Int} (h1 : -(2 ^ 127) ≤ x) (h2 : x < 2 ^ 127) :
    wrapI128 x = x := by
  unfold wrapI128
  have e : (2 : Int) ^ 128 = 2 ^ 127 + 2 ^ 127 := by norm_num
  rw [Int.emod_eq_of_lt (by linarith) (by linarith)]
  ring

theorem u128ToI128_eq {a : Nat} (h : a < 2 ^ 127) : u128ToI128 a = a := by
  unfold u128ToI128
  rw [if_pos h]

theorem wrapU128_eq_self {a : Nat} (h : a < 2 ^ 128) : wrapU128 a = a :=
  Nat.mod_eq_of_lt h

theorem wrapU64_eq_self {a : Nat} (h : a < 2 ^ 64) : wrapU64 a = a :=
  Nat.mod_eq_of_lt h

/-- The accumulated balance is always below `2 ^ 125`, whether or not the
`u128` product wrapped, because it is a `u128` divided by 1000. -/
theorem get_accumulated_balance_lt (p r : Nat) :
    get_accumulated_balance p r < 2 ^ 125 := by
  have h : p * r % 2 ^ 128 < 2 ^ 128 := Nat.mod_lt _ (by norm_num)
  have h2 : (2 : Nat) ^ 128 ≤ 2 ^ 125 * 1000 := by norm_num
  exact Nat.div_lt_of_lt_mul (lt_of_lt_of_le h h2)

/-- When the `u128` product does not wrap, the accumulated balance is the
exact `floor(elapsed_ms * refill_rate / 1000)`. -/
theorem get_accumulated_balance_exact {p r : Nat} (h : p * r < 2 ^ 128) :
    get_accumulated_balance p r = p * r / 1000 := by
  unfold get_accumulated_balance
  rw [wrapU128_eq_self h]

/-- Floor division is superadditive: splitting the numerator loses
remainder. -/
theorem div_add_div_le (x y k : Nat) : x / k + y / k ≤ (x + y) / k := by
  rcases Nat.eq_zero_or_pos k with hk | hk
  · subst hk; simp
  · rw [Nat.le_div_iff_mul_le hk, Nat.add_mul]
    exact Nat.add_le_add (Nat.div_mul_le_self x k) (Nat.div_mul_le_self y k)

/-! ## Characterization of `replace_balance` -/

/-- Lemma: `replace_balance` on the full branch: the entry is removed and
`max_balance` is returned, with no division performed. -/
theorem replace_balance_full {d : Data} {v : Int} (h : d.max_balance ≤ v)
    (now : Nat) (u : IdType) :
    d.replace_balance now u v =
      some ({ d with users := fun w => if w = u then none else d.users w },
            d.max_balance) := by
  unfold Data.replace_balance
  rw [if_pos h]

/-- Lemma: `replace_balance` on the storing branch (`v < max_balance`, nonzero
rate): the entry `{balance := v, last_update := now}` is stored and an
expiry is pushed at `now + ((1000 * (max_balance - v)) / rate) as u64`. -/
theorem replace_balance_store {d : Data} {v : Int} (h : v < d.max_balance)
    (hr : d.balance_per_second ≠ 0) (now : Nat) (u : IdType) :
    d.replace_balance now u v =
      some ({ d with
                users := fun w => if w = u then some ⟨v, now⟩ else d.users w
                next_expiration := fun w =>
                  if w = u then
                    some (now + wrapU64 (wrapU128 (1000 * (d.max_balance - v).toNat) /
                      d.balance_per_second))
                  else d.next_expiration w },
            v) := by
  unfold Data.replace_balance get_balance_wait
  rw [if_neg (not_le.mpr h), if_neg hr]

/-- Lemma: `get_balance_wait` computes the exact floor wait when neither `u128`
product nor `u64` narrowing can change the value. -/
theorem get_balance_wait_exact {bal rate : Nat} (hr : rate ≠ 0)
    (hbal : 1000 * bal < 2 ^ 128) (hres : 1000 * bal / rate < 2 ^ 64) :
    get_balance_wait bal rate = some (1000 * bal / rate) := by
  unfold get_balance_wait
  rw [if_neg hr, wrapU128_eq_self hbal, wrapU64_eq_self hres]

/-! ## Characterization of `add_balance` -/

/-- Under no-wrap side conditions, `add_balance` delegates to
`replace_balance` applied to the **unclamped** exact sum
`currentExact + delta`. -/
theorem add_balance_exact (d : Data) (now : Nat) (u : IdType) (δ : Int)
    (hmax : i64Range d.max_balance) (hδ : i64Range δ)
    (hE : ∀ e, d.users u = some e → i64Range e.balance ∧
      (now - e.last_balance_update) * d.balance_per_second < 2 ^ 128)
    (hnew : i64Range (currentExact d now u + δ)) :
    d.add_balance now u δ = d.replace_balance now u (currentExact d now u + δ) := by
  unfold Data.add_balance
  cases hu : d.users u with
  | none =>
    have hc : currentExact d now u = d.max_balance := by
      unfold currentExact; rw [hu]
    rw [hc] at hnew
    have h128 : wrapI128 (d.max_balance + δ) = d.max_balance + δ := by
      apply wrapI128_eq_self
      · have := hmax.1; have := hδ.1; norm_num at *; linarith
      · have := hmax.2; have := hδ.2; norm_num at *; linarith
    simp only [hu, h128, wrapI64_eq_self hnew, hc]
  | some e =>
    obtain ⟨hb, hprod⟩ := hE e hu
    set p := now - e.last_balance_update with hp
    have ha_lt : get_accumulated_balance p d.balance_per_second < 2 ^ 125 :=
      get_accumulated_balance_lt _ _
    have hcast : u128ToI128 (get_accumulated_balance p d.balance_per_second) =
        (get_accumulated_balance p d.balance_per_second : Int) :=
      u128ToI128_eq (lt_trans ha_lt (by norm_num))
    have ha_ex : get_accumulated_balance p d.balance_per_second =
        p * d.balance_per_second / 1000 := get_accumulated_balance_exact hprod
    have hsum : wrapI128 (e.balance +
        (get_accumulated_balance p d.balance_per_second : Int)) =
        e.balance + (get_accumulated_balance p d.balance_per_second : Int) := by
      apply wrapI128_eq_self
      · have h0 : (0 : Int) ≤ (get_accumulated_balance p d.balance_per_second : Int) :=
          Int.natCast_nonneg _
        have := hb.1; norm_num at *; linarith
      · have hai : (get_accumulated_balance p d.balance_per_second : Int) < 2 ^ 125 := by
          exact_mod_cast ha_lt
        have := hb.2; norm_num at *; linarith
    have hc : currentExact d now u =
        e.balance + (get_accumulated_balance p d.balance_per_second : Int) := by
      unfold currentExact
      rw [hu, ha_ex, hp]
    rw [hc] at hnew
    have h128 : wrapI128 (e.balance +
        (get_accumulated_balance p d.balance_per_second : Int) + δ) =
        e.balance + (get_accumulated_balance p d.balance_per_second : Int) + δ := by
      apply wrapI128_eq_self
      · have h0 : (0 : Int) ≤ (get_accumulated_balance p d.balance_per_second : Int) :=
          Int.natCast_nonneg _
        have := hb.1; have := hδ.1; norm_num at *; linarith
      · have hai : (get_accumulated_balance p d.balance_per_second : Int) < 2 ^ 125 := by
          exact_mod_cast ha_lt
        have := hb.2; have := hδ.2; norm_num at *; linarith
    simp only [hu, hcast, hsum, h128, wrapI64_eq_self hnew, hc]

/-- Fact `i64Range 0`, used to instantiate `add_balance_exact` at delta 0. -/
theorem i64Range_zero : i64Range 0 := by unfold i64Range; norm_num

/-- Exact characterization of a read (`get_balance`) under no-wrap side
conditions: the returned balance is `min(currentExact, max_balance)`
(written with `if`), a full result removes the entry, a below-full result
re-stores `{balance := currentExact, last_update := t}`. -/
theorem get_balance_cases (d : Data) (t : Nat) (u : IdType)
    (hmax : i64Range d.max_balance) (hr : d.balance_per_second ≠ 0)
    (hE : ∀ e, d.users u = some e → i64Range e.balance ∧
      (t - e.last_balance_update) * d.balance_per_second < 2 ^ 128 ∧
      i64Range (e.balance +
        ((t - e.last_balance_update) * d.balance_per_second / 1000 : Nat))) :
    ∃ d', d.get_balance t u =
        some (d', if d.max_balance ≤ currentExact d t u then d.max_balance
                  else currentExact d t u) ∧
      d'.max_balance = d.max_balance ∧
      d'.balance_per_second = d.balance_per_second ∧
      (d.max_balance ≤ currentExact d t u → d'.users u = none) ∧
      (currentExact d t u < d.max_balance →
        d'.users u = some ⟨currentExact d t u, t⟩) := by
  have hnew : i64Range (currentExact d t u + 0) := by
    rw [add_zero]
    cases hu : d.users u with
    | none => unfold currentExact; rw [hu]; exact hmax
    | some e =>
      have hc : currentExact d t u = e.balance +
          ((t - e.last_balance_update) * d.balance_per_second / 1000 : Nat) := by
        unfold currentExact; rw [hu]
      rw [hc]; exact (hE e hu).2.2
  have heq := add_balance_exact d t u 0 hmax i64Range_zero
    (fun e he => ⟨(hE e he).1, (hE e he).2.1⟩) hnew
  rw [add_zero] at heq
  unfold Data.get_balance
  rw [heq]
  by_cases hc : d.max_balance ≤ currentExact d t u
  · rw [replace_balance_full hc]
    refine ⟨{ d with users := fun w => if w = u then none else d.users w },
      by rw [if_pos hc], rfl, rfl, fun _ => by simp, fun h => absurd hc (not_le.mpr h)⟩
  · rw [replace_balance_store (not_le.mp hc) hr]
    refine ⟨{ d with
        users := fun w => if w = u then some ⟨currentExact d t u, t⟩ else d.users w
        next_expiration := fun w =>
          if w = u then
            some (t + wrapU64 (wrapU128 (1000 * (d.max_balance - currentExact d t u).toNat) /
              d.balance_per_second))
          else d.next_expiration w },
      by rw [if_neg hc], rfl, rfl, fun h => absurd h hc, fun _ => by simp⟩

/-! ## The map-residency invariant -/

/-- Lemma: `replace_balance` preserves the residency invariant: the stored branch
only ever inserts a balance strictly below `max_balance`. -/
theorem EntryInv_replace {d : Data} {now : Nat} {u : IdType} {v : Int}
    {d' : Data} {r : Int} (hInv : EntryInv d)
    (h : d.replace_balance now u v = some (d', r)) : EntryInv d' := by
  by_cases hv : d.max_balance ≤ v
  · rw [replace_balance_full hv] at h
    simp only [Option.some.injEq, Prod.mk.injEq] at h
    obtain ⟨h1, -⟩ := h
    subst h1
    intro w e hw
    dsimp at hw
    split at hw
    · exact absurd hw (by simp)
    · exact hInv w e hw
  · by_cases hrate : d.balance_per_second = 0
    · unfold Data.replace_balance get_balance_wait at h
      rw [if_neg hv, if_pos hrate] at h
      cases h
    · rw [replace_balance_store (not_le.mp hv) hrate] at h
      simp only [Option.some.injEq, Prod.mk.injEq] at h
      obtain ⟨h1, -⟩ := h
      subst h1
      intro w e hw
      dsimp at hw
      split at hw
      · cases hw
        exact not_le.mp hv
      · exact hInv w e hw

/-- Lemma: `add_balance` preserves the residency invariant (it delegates every
mutation to `replace_balance`). -/
theorem EntryInv_add {d : Data} {now : Nat} {u : IdType} {δ : Int}
    {d' : Data} {r : Int} (hInv : EntryInv d)
    (h : d.add_balance now u δ = some (d', r)) : EntryInv d' := by
  unfold Data.add_balance at h
  exact EntryInv_replace hInv h

/-- After the full-branch removal, a read at any later instant finds no
entry, treats the user as full, and returns `max_balance` again via the
full branch — no division, no stored state. -/
theorem get_balance_after_removal {d : Data} (hmax : i64Range d.max_balance)
    {u : IdType} (hu : d.users u = none) (t : Nat) :
    ∃ d'', d.get_balance t u = some (d'', d.max_balance) ∧ d''.users u = none ∧
      d''.max_balance = d.max_balance ∧
      d''.balance_per_second = d.balance_per_second := by
  have hc : currentExact d t u = d.max_balance := by
    unfold currentExact; rw [hu]
  have hnew : i64Range (currentExact d t u + 0) := by rw [add_zero, hc]; exact hmax
  have heq := add_balance_exact d t u 0 hmax i64Range_zero
    (fun e he => absurd (hu ▸ he) (by simp)) hnew
  rw [add_zero, hc] at heq
  unfold Data.get_balance
  rw [heq, replace_balance_full le_rfl]
  exact ⟨_, rfl, by simp, rfl, rfl⟩

/-- The absent-entry value of `currentExact`. -/
theorem currentExact_none {d : Data} {u : IdType} (hu : d.users u = none)
    (t : Nat) : currentExact d t u = d.max_balance := by
  unfold currentExact
  rw [hu]

/-- The stored-entry value of `currentExact`. -/
theorem currentExact_some {d : Data} {u : IdType} {e : UserData}
    (hu : d.users u = some e) (t : Nat) :
    currentExact d t u = e.balance +
      ((t - e.last_balance_update) * d.balance_per_second / 1000 : Nat) := by
  unfold currentExact
  rw [hu]

end Quota

open Quota Schema

set_option maxRecDepth 40000

/-- Claim C1 (counterexample): with max 100, rate 1000/s, user 0 stored at
balance 50 and 100 ms elapsed (accrued 100, unclamped sum 150), a delta of
−30 returns 100 under the code (the sum is clamped only AFTER the delta),
while the claimed clamp-before-delta computation yields 70. -/
theorem c1_clamp_order_counterexample :
    (dHalf.add_balance 100 0 (-30)).map Prod.snd = some 100 ∧
    (addBalanceClampBefore dHalf 100 0 (-30)).map Prod.snd = some 70 ∧
    (100 : Int) ≠ 70 := by decide

/-- Claim C1 (amended): `add_balance` computes the UNCLAMPED
`current = stored_balance + accrued` (or `max_balance` when the entry is
absent) and delegates `current + delta` to `replace_balance`, whose
max-check applies the clamp only after the delta; in particular a negative
delta is subtracted from the unclamped sum, never from `max_balance`. -/
theorem c1_add_balance_delegates_unclamped (d : Data) (now : Nat) (u : IdType)
    (δ : Int) (hmax : i64Range d.max_balance) (hδ : i64Range δ)
    (hE : ∀ e, d.users u = some e → i64Range e.balance ∧
      (now - e.last_balance_update) * d.balance_per_second < 2 ^ 128)
    (hnew : i64Range (currentExact d now u + δ)) :
    d.add_balance now u δ = d.replace_balance now u (currentExact d now u + δ) :=
  add_balance_exact d now u δ hmax hδ hE hnew

/-- Claim C1 (amended, witness): the amended statement instantiated on the
counterexample state. -/
theorem c1_add_balance_delegates_unclamped_witness :
    dHalf.add_balance 100 0 (-30) =
      dHalf.replace_balance 100 0 (currentExact dHalf 100 0 + (-30)) := by
  refine c1_add_balance_delegates_unclamped dHalf 100 0 (-30)
    (by decide) (by decide) ?_ (by decide)
  intro e he
  injection (show some (⟨50, 0⟩ : UserData) = some e from he) with h
  subst h
  exact ⟨by decide, by decide⟩

/-- Claim C5 (counterexample): `init(1000, 0)` returns a usable handle —
a fresh-user read on it succeeds and returns 1000 — yet a later
`replace_balance` storing a below-max balance divides by the zero rate and
panics (`none`): initialization does not fail and the division is not
guarded at startup. -/
theorem c5_zero_rate_counterexample :
    ((Quota.init 1000 0).get_balance 5 7).map Prod.snd = some 1000 ∧
    (Quota.init 1000 0).replace_balance 5 7 3 = none := ⟨by decide, by rfl⟩

/-- Claim C5 (amended): `init` performs no validation of the refill rate;
with rate 0 it returns a handle and the service starts, and every
`replace_balance` on that handle that would store a balance below
`max_balance` panics with a division by zero at call time. -/
theorem c5_zero_rate_panics_at_call (max_balance v : Int) (now : Nat)
    (u : IdType) (h : v < max_balance) :
    (Quota.init max_balance 0).replace_balance now u v = none := by
  unfold Quota.init Data.new Data.replace_balance get_balance_wait
  simp [if_neg (not_le.mpr h)]

/-- Claim C5 (amended, witness). -/
theorem c5_zero_rate_panics_at_call_witness :
    (Quota.init 1000 0).replace_balance 0 0 5 = none :=
  c5_zero_rate_panics_at_call 1000 5 0 0 (by decide)

/-- Claim C6 (counterexample): with max 10 and rate 3/s, storing balance 0
pushes the expiry at `0 + floor(10000/3) = 3333` ms, not at the claimed
`ceil(10000/3) = 3334` ms. -/
theorem c6_ceil_counterexample :
    ((Data.new 10 3).replace_balance 0 0 0).map (fun p => p.1.next_expiration 0) =
      some (some 3333) ∧
    timeToFullCeil 10 0 3 = 3334 ∧ (3333 : Nat) ≠ 3334 := by decide

/-- Claim C6 (amended): for `new < max_balance` (both within `i64` and the
floor wait fitting `u64`), `replace_balance` stores
`{balance := new, last_update := now}` and pushes the expiry for the user
at `now + floor(1000 * (max_balance - new) / refill_rate)` — rounded DOWN;
the scheduler separately adds a one-second margin when it sleeps. -/
theorem c6_replace_stores_floor_expiry (d : Data) (now : Nat) (u : IdType)
    (v : Int) (hv : v < d.max_balance) (hr : d.balance_per_second ≠ 0)
    (hmax : i64Range d.max_balance) (hvr : -(2 ^ 63) ≤ v)
    (hwait : 1000 * (d.max_balance - v).toNat / d.balance_per_second < 2 ^ 64) :
    ∃ d', d.replace_balance now u v = some (d', v) ∧
      d'.users u = some ⟨v, now⟩ ∧
      d'.next_expiration u =
        some (now + 1000 * (d.max_balance - v).toNat / d.balance_per_second) := by
  rw [replace_balance_store hv hr]
  have h64 : (d.max_balance - v).toNat ≤ 2 ^ 64 := by
    have h1 := hmax.2
    have e1 : (2 : Int) ^ 63 = 9223372036854775808 := by norm_num
    have e2 : ((2 : Nat) ^ 64 : Nat) = 18446744073709551616 := by norm_num
    omega
  have hbound : 1000 * (d.max_balance - v).toNat < 2 ^ 128 :=
    lt_of_le_of_lt (Nat.mul_le_mul_left _ h64) (by norm_num)
  refine ⟨_, rfl, by simp, ?_⟩
  dsimp
  rw [if_pos rfl, wrapU128_eq_self hbound, wrapU64_eq_self hwait]

/-- Claim C6 (amended, witness): storing balance 0 in a fresh max 10,
rate 3/s ledger pushes the expiry at `0 + 3333` ms. -/
theorem c6_replace_stores_floor_expiry_witness :
    ∃ d', (Data.new 10 3).replace_balance 0 0 0 = some (d', 0) ∧
      d'.users 0 = some ⟨0, 0⟩ ∧ d'.next_expiration 0 = some 3333 :=
  c6_replace_stores_floor_expiry (Data.new 10 3) 0 0 0
    (by decide) (by decide) (by decide) (by decide) (by decide)

/-- Claim C2 (counterexample): with max 1000, rate 1000/s and user 0 stored
at balance 0, a read after `2^63` ms accrues exactly `2^63` coins, so the
exact unbounded result is the clamp to 1000 — but the `as i64` narrowing in
`add_balance` wraps `2^63` to `-2^63`, which the code stores and returns:
the conversion changed the mathematical value. -/
theorem c2_narrowing_counterexample :
    (dZero.get_balance (2 ^ 63) 0).map Prod.snd = some (-(2 ^ 63)) ∧
    currentExact dZero (2 ^ 63) 0 = 2 ^ 63 ∧
    (if dZero.max_balance ≤ currentExact dZero (2 ^ 63) 0 + 0 then
      dZero.max_balance else currentExact dZero (2 ^ 63) 0 + 0) = 1000 ∧
    (-(2 ^ 63) : Int) ≠ 1000 := by decide

/-- Claim C2 (amended): the wide `u128`/`i128` intermediates make the
elapsed×rate and `(max−balance)×1000÷rate` computations exact, and the
narrowing conversions preserve the mathematical value WHENEVER the exact
results fit the target types — the exact new balance in `i64` and the exact
wait in `u64` (the counterexample shows they wrap otherwise).  Under those
range conditions `add_balance` returns, stores, and schedules exactly the
unbounded-integer results. -/
theorem c2_exact_within_range (d : Data) (now : Nat) (u : IdType) (δ : Int)
    (hmax : i64Range d.max_balance) (hδ : i64Range δ)
    (hr : d.balance_per_second ≠ 0)
    (hE : ∀ e, d.users u = some e → i64Range e.balance ∧
      (now - e.last_balance_update) * d.balance_per_second < 2 ^ 128)
    (hnew : i64Range (currentExact d now u + δ))
    (hwait : 1000 * (d.max_balance - (currentExact d now u + δ)).toNat /
        d.balance_per_second < 2 ^ 64) :
    (d.max_balance ≤ currentExact d now u + δ →
      d.add_balance now u δ =
        some ({ d with users := fun w => if w = u then none else d.users w },
              d.max_balance)) ∧
    (currentExact d now u + δ < d.max_balance →
      d.add_balance now u δ =
        some ({ d with
                  users := fun w =>
                    if w = u then some ⟨currentExact d now u + δ, now⟩
                    else d.users w
                  next_expiration := fun w =>
                    if w = u then
                      some (now +
                        1000 * (d.max_balance - (currentExact d now u + δ)).toNat /
                          d.balance_per_second)
                    else d.next_expiration w },
              currentExact d now u + δ)) := by
  have heq := add_balance_exact d now u δ hmax hδ hE hnew
  constructor
  · intro hfull
    rw [heq, replace_balance_full hfull]
  · intro hstore
    rw [heq, replace_balance_store hstore hr]
    have h64 : (d.max_balance - (currentExact d now u + δ)).toNat ≤ 2 ^ 64 := by
      have h1 := hmax.2
      have h2 := hnew.1
      have e1 : (2 : Int) ^ 63 = 9223372036854775808 := by norm_num
      have e2 : ((2 : Nat) ^ 64 : Nat) = 18446744073709551616 := by norm_num
      omega
    have hbound : 1000 * (d.max_balance - (currentExact d now u + δ)).toNat < 2 ^ 128 :=
      lt_of_le_of_lt (Nat.mul_le_mul_left _ h64) (by norm_num)
    simp only [wrapU128_eq_self hbound, wrapU64_eq_self hwait]

/-- Claim C2 (amended, witness): on the in-range input max 100, rate 1000/s,
stored balance 50, 100 ms elapsed, delta −60, the code returns exactly the
unbounded-arithmetic result 90. -/
theorem c2_exact_within_range_witness :
    (dHalf.add_balance 100 0 (-60)).map Prod.snd = some 90 := by
  have hE : ∀ e, dHalf.users 0 = some e → i64Range e.balance ∧
      (100 - e.last_balance_update) * dHalf.balance_per_second < 2 ^ 128 := by
    intro e he
    injection (show some (⟨50, 0⟩ : UserData) = some e from he) with h
    subst h
    exact ⟨by decide, by decide⟩
  have h := (c2_exact_within_range dHalf 100 0 (-60) (by decide) (by decide)
    (by decide) hE (by decide) (by decide)).2 (by decide)
  rw [h]
  decide

/-- Claim C3: every ledger operation — `replace_balance`, `add_balance`,
`get_balance` (which is also the scheduler's forced recomputation) —
preserves the residency invariant `EntryInv` (an entry exists only while
its stored balance is strictly below `max_balance`); any recomputation
reaching `max_balance` removes the entry; and after
`replace_balance(now, u, max_balance)` no entry remains for `u` while a
later read still returns `max_balance` from no stored state. -/
theorem c3_entry_residency :
    (∀ (d : Data) (now : Nat) (u : IdType) (v : Int) (d' : Data) (r : Int),
      EntryInv d → d.replace_balance now u v = some (d', r) → EntryInv d') ∧
    (∀ (d : Data) (now : Nat) (u : IdType) (δ : Int) (d' : Data) (r : Int),
      EntryInv d → d.add_balance now u δ = some (d', r) → EntryInv d') ∧
    (∀ (d : Data) (now : Nat) (u : IdType) (d' : Data) (r : Int),
      EntryInv d → d.get_balance now u = some (d', r) → EntryInv d') ∧
    (∀ (d : Data) (now : Nat) (u : IdType) (v : Int), d.max_balance ≤ v →
      ∃ d', d.replace_balance now u v = some (d', d.max_balance) ∧
        d'.users u = none) ∧
    (∀ (d : Data) (now now' : Nat) (u : IdType), i64Range d.max_balance →
      ∃ d' d'', d.replace_balance now u d.max_balance = some (d', d.max_balance) ∧
        d'.users u = none ∧ d'.get_balance now' u = some (d'', d.max_balance)) := by
  refine ⟨fun d now u v d' r hInv h => EntryInv_replace hInv h,
    fun d now u δ d' r hInv h => EntryInv_add hInv h,
    fun d now u d' r hInv h => EntryInv_add hInv h, ?_, ?_⟩
  · intro d now u v hv
    rw [replace_balance_full hv]
    exact ⟨_, rfl, by simp⟩
  · intro d now now' u hmax
    have hrep := replace_balance_full (le_refl d.max_balance) now u
    have hu' : ({ d with users := fun w => if w = u then none else d.users w } :
        Data).users u = none := by simp
    obtain ⟨d'', hget, -, -, -⟩ := get_balance_after_removal
      (d := { d with users := fun w => if w = u then none else d.users w })
      hmax hu' now'
    exact ⟨_, d'', hrep, hu', hget⟩

/-- Claim C3 (witness): in a max 10, rate 2/s ledger, replacing user 0's
balance with 10 leaves no entry and a later read returns 10; and a spend of
4 by a fresh user preserves the residency invariant. -/
theorem c3_entry_residency_witness :
    (∃ d' d'', (Data.new 10 2).replace_balance 0 0 10 = some (d', 10) ∧
      d'.users 0 = none ∧ d'.get_balance 5 0 = some (d'', 10)) ∧
    ((Data.new 10 2).add_balance 3 1 (-4)).elim True (fun p => EntryInv p.1) := by
  constructor
  · exact c3_entry_residency.2.2.2.2 (Data.new 10 2) 0 5 0 (by decide)
  · cases heq : (Data.new 10 2).add_balance 3 1 (-4) with
    | none => simp
    | some p =>
      dsimp
      exact c3_entry_residency.2.1 (Data.new 10 2) 3 1 (-4) p.1 p.2
        (fun u e h => nomatch h) heq

/-- Claim C4 (counterexample): an administrator who opened at balance 1000
and spent 100 coins locally commits `diff = -100` to the shared ledger —
the commit path has no privilege check, so it is not a no-op for a
privileged caller. -/
theorem c4_admin_commit_counterexample :
    commit_quota_call true (some ⟨1, PermissionType.Admin⟩) 1000
        (spend_request_coins 1000 100) = some (1, -100) ∧
    some (1, -100) ≠ (none : Option (IdType × Int)) := by decide

/-- Claim C4 (amended): at request completion the quota commit calls
`add_quota_balance(now, user, final - start)` exactly when the difference
is nonzero, a quota bank is configured, and a user id is present — with no
privilege special-case: the caller's permission does not influence the
call at all. -/
theorem c4_commit_call_iff :
    ∀ (bank : Bool) (user : Option AuthUser) (rq fc : Int),
      (∀ uid diff, commit_quota_call bank user rq fc = some (uid, diff) ↔
        (fc ≠ rq ∧ bank = true ∧ raw_user_id user = some uid ∧
          diff = wrapI64 (fc - rq))) ∧
      (∀ i p p', commit_quota_call bank (some ⟨i, p⟩) rq fc =
        commit_quota_call bank (some ⟨i, p'⟩) rq fc) := by
  intro bank user rq fc
  constructor
  · intro uid diff
    by_cases h : rq = fc
    · subst h
      simp [commit_quota_call]
    · cases bank with
      | false =>
        cases user with
        | none => simp [commit_quota_call, raw_user_id, h]
        | some x => simp [commit_quota_call, raw_user_id, h]
      | true =>
        cases user with
        | none => simp [commit_quota_call, raw_user_id, h]
        | some x =>
          unfold commit_quota_call raw_user_id
          rw [if_neg h]
          dsimp
          constructor
          · intro hsome
            rw [Option.some.injEq, Prod.mk.injEq] at hsome
            exact ⟨Ne.symm h, rfl, by rw [hsome.1], hsome.2.symm⟩
          · rintro ⟨-, -, h3, h4⟩
            rw [Option.some.injEq] at h3
            rw [h3, h4]
  · intro i p p'
    rfl

/-- Claim C8: for a non-privileged authenticated caller,
`check_request_balance` fails with `TooManyRequests` exactly when the local
counter is ≤ 0 and succeeds exactly when it is > 0; for an administrator it
always succeeds, whatever the counter. -/
theorem c8_check_balance_spec : ∀ (i : IdType) (c : Int),
    (check_request_balance (some ⟨i, PermissionType.User⟩) c =
        Except.error ServiceError.TooManyRequests ↔ c ≤ 0) ∧
    (check_request_balance (some ⟨i, PermissionType.User⟩) c =
        Except.ok () ↔ 0 < c) ∧
    check_request_balance (some ⟨i, PermissionType.Admin⟩) c = Except.ok () := by
  intro i c
  refine ⟨?_, ?_, rfl⟩ <;>
    · unfold check_request_balance
      by_cases h : c ≤ 0 <;> simp [h] <;> omega

/-- Claim C7 (counterexample): with max 1000, rate 1000/s, user 0 stored at
balance 0 at instant 0, reading at `t1 = 0` returns 0, but the follow-up
read at `t2 = 2^63` ms returns `-2^63` — the recomputed balance wrapped in
the `as i64` narrowing — so the two reads are not monotone as claimed. -/
theorem c7_monotonic_counterexample :
    (dZero.get_balance 0 0).map Prod.snd = some 0 ∧
    ((dZero.get_balance 0 0).bind fun p => p.1.get_balance (2 ^ 63) 0).map
      Prod.snd = some (-(2 ^ 63)) ∧
    (-(2 ^ 63) : Int) < 0 := by decide

/-- Claim C7 (amended): monotonic refill holds whenever the recomputed
unclamped balances stay inside `i64` and the elapsed×rate products inside
`u128` (the counterexample shows it fails when the narrowing wraps): for
`t1 ≤ t2` with no intervening mutation, two successive reads return
`r1 ≤ r2`, both bounded by `max_balance`, even though the first read stores
its value and resets `last_update`. -/
theorem c7_refill_monotonic_in_range (d : Data) (u : IdType) (t1 t2 : Nat)
    (h12 : t1 ≤ t2) (hmax : i64Range d.max_balance)
    (hr : d.balance_per_second ≠ 0)
    (hE : ∀ e, d.users u = some e → e.last_balance_update ≤ t1 ∧
      i64Range e.balance ∧
      (t2 - e.last_balance_update) * d.balance_per_second < 2 ^ 128 ∧
      e.balance + ((t2 - e.last_balance_update) * d.balance_per_second / 1000 : Nat)
        < 2 ^ 63) :
    ∃ d1 r1 d2 r2,
      d.get_balance t1 u = some (d1, r1) ∧ d1.get_balance t2 u = some (d2, r2) ∧
      r1 ≤ r2 ∧ r1 ≤ d.max_balance ∧ r2 ≤ d.max_balance := by
  cases hu : d.users u with
  | none =>
    obtain ⟨d1, hget1, hu1, hm1, hr1⟩ := get_balance_after_removal hmax hu t1
    obtain ⟨d2, hget2, -, -, -⟩ :=
      get_balance_after_removal (by rw [hm1]; exact hmax) hu1 t2
    rw [hm1] at hget2
    exact ⟨d1, _, d2, _, hget1, hget2, le_rfl, le_rfl, le_rfl⟩
  | some e =>
    obtain ⟨hlu, hb, hprod, hbound⟩ := hE e hu
    have f2 : (t1 - e.last_balance_update) * d.balance_per_second ≤
        (t2 - e.last_balance_update) * d.balance_per_second :=
      Nat.mul_le_mul_right _ (Nat.sub_le_sub_right h12 _)
    have hprod1 : (t1 - e.last_balance_update) * d.balance_per_second < 2 ^ 128 :=
      lt_of_le_of_lt f2 hprod
    have fa1 : ((t1 - e.last_balance_update) * d.balance_per_second / 1000 : Nat) ≤
        (t2 - e.last_balance_update) * d.balance_per_second / 1000 :=
      Nat.div_le_div_right f2
    have fa1' : (((t1 - e.last_balance_update) * d.balance_per_second / 1000 : Nat) : Int) ≤
        (((t2 - e.last_balance_update) * d.balance_per_second / 1000 : Nat) : Int) := by
      exact_mod_cast fa1
    have ha1nn : (0 : Int) ≤
        (((t1 - e.last_balance_update) * d.balance_per_second / 1000 : Nat) : Int) :=
      Int.natCast_nonneg _
    have hc1range : i64Range (e.balance +
        (((t1 - e.last_balance_update) * d.balance_per_second / 1000 : Nat) : Int)) := by
      constructor
      · have := hb.1; linarith
      · linarith
    have hE1 : ∀ e', d.users u = some e' → i64Range e'.balance ∧
        (t1 - e'.last_balance_update) * d.balance_per_second < 2 ^ 128 ∧
        i64Range (e'.balance +
          ((t1 - e'.last_balance_update) * d.balance_per_second / 1000 : Nat)) := by
      intro e' he'
      rw [hu] at he'
      injection he' with h'
      subst h'
      exact ⟨hb, hprod1, hc1range⟩
    obtain ⟨d1, hget1, hm1, hrt1, hfull1, hstore1⟩ :=
      get_balance_cases d t1 u hmax hr hE1
    rw [currentExact_some hu t1] at hget1 hfull1 hstore1
    by_cases hc : d.max_balance ≤ e.balance +
        (((t1 - e.last_balance_update) * d.balance_per_second / 1000 : Nat) : Int)
    · rw [if_pos hc] at hget1
      obtain ⟨d2, hget2, -, -, -⟩ :=
        get_balance_after_removal (by rw [hm1]; exact hmax) (hfull1 hc) t2
      rw [hm1] at hget2
      exact ⟨d1, _, d2, _, hget1, hget2, le_rfl, le_rfl, le_rfl⟩
    · rw [if_neg hc] at hget1
      have hcns := not_le.mp hc
      have hst := hstore1 hcns
      have hkey : (t1 - e.last_balance_update) + (t2 - t1) =
          t2 - e.last_balance_update := by omega
      have hsum : ((t1 - e.last_balance_update) * d.balance_per_second / 1000 : Nat) +
          (t2 - t1) * d.balance_per_second / 1000 ≤
          (t2 - e.last_balance_update) * d.balance_per_second / 1000 := by
        rw [← hkey, Nat.add_mul]
        exact div_add_div_le _ _ _
      have hsum' : (((t1 - e.last_balance_update) * d.balance_per_second / 1000 : Nat) : Int) +
          (((t2 - t1) * d.balance_per_second / 1000 : Nat) : Int) ≤
          (((t2 - e.last_balance_update) * d.balance_per_second / 1000 : Nat) : Int) := by
        exact_mod_cast hsum
      have ha2nn : (0 : Int) ≤ (((t2 - t1) * d.balance_per_second / 1000 : Nat) : Int) :=
        Int.natCast_nonneg _
      have hprod2 : (t2 - t1) * d.balance_per_second < 2 ^ 128 :=
        lt_of_le_of_lt (Nat.mul_le_mul_right _ (Nat.sub_le_sub_left hlu t2)) hprod
      have hc2range : i64Range (e.balance +
          (((t1 - e.last_balance_update) * d.balance_per_second / 1000 : Nat) : Int) +
          (((t2 - t1) * d.balance_per_second / 1000 : Nat) : Int)) := by
        constructor
        · have := hb.1; linarith
        · linarith
      have hE2 : ∀ e', d1.users u = some e' → i64Range e'.balance ∧
          (t2 - e'.last_balance_update) * d1.balance_per_second < 2 ^ 128 ∧
          i64Range (e'.balance +
            ((t2 - e'.last_balance_update) * d1.balance_per_second / 1000 : Nat)) := by
        intro e' he'
        rw [hst] at he'
        injection he' with h'
        subst h'
        dsimp only
        rw [hrt1]
        refine ⟨⟨by have := hb.1; linarith, lt_trans hcns hmax.2⟩, hprod2, hc2range⟩
      obtain ⟨d2, hget2, hm2, hrt2, hfull2, hstore2⟩ :=
        get_balance_cases d1 t2 u (by rw [hm1]; exact hmax)
          (by rw [hrt1]; exact hr) hE2
      have hcur2 : currentExact d1 t2 u = e.balance +
          (((t1 - e.last_balance_update) * d.balance_per_second / 1000 : Nat) : Int) +
          (((t2 - t1) * d.balance_per_second / 1000 : Nat) : Int) := by
        rw [currentExact_some hst t2]
        dsimp only
        rw [hrt1]
      rw [hcur2, hm1] at hget2
      by_cases hc2 : d.max_balance ≤ e.balance +
          (((t1 - e.last_balance_update) * d.balance_per_second / 1000 : Nat) : Int) +
          (((t2 - t1) * d.balance_per_second / 1000 : Nat) : Int)
      · rw [if_pos hc2] at hget2
        exact ⟨d1, _, d2, _, hget1, hget2, le_of_lt hcns, le_of_lt hcns, le_rfl⟩
      · rw [if_neg hc2] at hget2
        exact ⟨d1, _, d2, _, hget1, hget2, by linarith, le_of_lt hcns,
          le_of_lt (not_le.mp hc2)⟩

/-- Claim C7 (amended, witness): max 100, rate 1000/s, user 0 stored at
balance 5 at instant 0; reads at 10 ms and 20 ms are monotone and bounded. -/
theorem c7_refill_monotonic_in_range_witness :
    ∃ d1 r1 d2 r2,
      dSmallMax5.get_balance 10 0 = some (d1, r1) ∧
      d1.get_balance 20 0 = some (d2, r2) ∧
      r1 ≤ r2 ∧ r1 ≤ dSmallMax5.max_balance ∧ r2 ≤ dSmallMax5.max_balance := by
  refine c7_refill_monotonic_in_range dSmallMax5 0 10 20 (by decide) (by decide)
    (by decide) ?_
  intro e he
  injection (show some (⟨5, 0⟩ : UserData) = some e from he) with h
  subst h
  exact ⟨by decide, by decide, by decide, by decide⟩

/-- Claim C10 (counterexample): with max 100, rate 1000/s, user 0 stored at
balance 0 at instant 0, reading at `2^62` then `2^63` ms ends at 100, while
the single read at `2^63` ms ends at `-2^63` (the one-shot accrual wraps in
the `as i64` narrowing): the split reads GAINED coins over the single read,
so the claimed inequality fails as universally stated. -/
theorem c10_split_reads_counterexample :
    ((dSmallMax.get_balance (2 ^ 62) 0).bind fun p => p.1.get_balance (2 ^ 63) 0).map
      Prod.snd = some 100 ∧
    (dSmallMax.get_balance (2 ^ 63) 0).map Prod.snd = some (-(2 ^ 63)) ∧
    ¬ ((100 : Int) ≤ -(2 ^ 63)) := by decide

/-- Claim C10 (amended): splitting one refill interval into two reads never
gains and can lose coins PROVIDED the recomputed unclamped balances stay
inside `i64` and the elapsed×rate products inside `u128` (the
counterexample shows the wrap regime violates it): for a stored entry with
timestamp `t ≤ t1 ≤ t2`, reading at `t1` then `t2` returns a final balance
at most that of a single read at `t2`; and any read spaced so that
`elapsed_ms * rate < 1000` accrues zero coins. -/
theorem c10_split_reads_never_gain_in_range (d : Data) (u : IdType)
    (e : UserData) (t1 t2 : Nat) (he : d.users u = some e)
    (hlu : e.last_balance_update ≤ t1) (h12 : t1 ≤ t2)
    (hmax : i64Range d.max_balance) (hr : d.balance_per_second ≠ 0)
    (hb : i64Range e.balance)
    (hprod : (t2 - e.last_balance_update) * d.balance_per_second < 2 ^ 128)
    (hbound : e.balance +
      ((t2 - e.last_balance_update) * d.balance_per_second / 1000 : Nat) < 2 ^ 63) :
    (∃ d1 r1 d2 r2 ds rs,
      d.get_balance t1 u = some (d1, r1) ∧ d1.get_balance t2 u = some (d2, r2) ∧
      d.get_balance t2 u = some (ds, rs) ∧ r2 ≤ rs) ∧
    (∀ p, p * d.balance_per_second < 1000 →
      get_accumulated_balance p d.balance_per_second = 0) := by
  constructor
  · -- shared arithmetic facts
    have f2 : (t1 - e.last_balance_update) * d.balance_per_second ≤
        (t2 - e.last_balance_update) * d.balance_per_second :=
      Nat.mul_le_mul_right _ (Nat.sub_le_sub_right h12 _)
    have hprod1 : (t1 - e.last_balance_update) * d.balance_per_second < 2 ^ 128 :=
      lt_of_le_of_lt f2 hprod
    have fa1' : (((t1 - e.last_balance_update) * d.balance_per_second / 1000 : Nat) : Int) ≤
        (((t2 - e.last_balance_update) * d.balance_per_second / 1000 : Nat) : Int) := by
      exact_mod_cast Nat.div_le_div_right f2
    have ha1nn : (0 : Int) ≤
        (((t1 - e.last_balance_update) * d.balance_per_second / 1000 : Nat) : Int) :=
      Int.natCast_nonneg _
    have hatnn : (0 : Int) ≤
        (((t2 - e.last_balance_update) * d.balance_per_second / 1000 : Nat) : Int) :=
      Int.natCast_nonneg _
    have hkey : (t1 - e.last_balance_update) + (t2 - t1) =
        t2 - e.last_balance_update := by omega
    have hsum' : (((t1 - e.last_balance_update) * d.balance_per_second / 1000 : Nat) : Int) +
        (((t2 - t1) * d.balance_per_second / 1000 : Nat) : Int) ≤
        (((t2 - e.last_balance_update) * d.balance_per_second / 1000 : Nat) : Int) := by
      have hsum : ((t1 - e.last_balance_update) * d.balance_per_second / 1000 : Nat) +
          (t2 - t1) * d.balance_per_second / 1000 ≤
          (t2 - e.last_balance_update) * d.balance_per_second / 1000 := by
        rw [← hkey, Nat.add_mul]
        exact div_add_div_le _ _ _
      exact_mod_cast hsum
    have ha2nn : (0 : Int) ≤ (((t2 - t1) * d.balance_per_second / 1000 : Nat) : Int) :=
      Int.natCast_nonneg _
    have hprod2 : (t2 - t1) * d.balance_per_second < 2 ^ 128 :=
      lt_of_le_of_lt (Nat.mul_le_mul_right _ (Nat.sub_le_sub_left hlu t2)) hprod
    -- the single read at t2
    have hEs : ∀ e', d.users u = some e' → i64Range e'.balance ∧
        (t2 - e'.last_balance_update) * d.balance_per_second < 2 ^ 128 ∧
        i64Range (e'.balance +
          ((t2 - e'.last_balance_update) * d.balance_per_second / 1000 : Nat)) := by
      intro e' he'
      rw [he] at he'
      injection he' with h'
      subst h'
      exact ⟨hb, hprod, ⟨by have := hb.1; linarith, hbound⟩⟩
    obtain ⟨ds, hgets, hms, hrs, hfulls, hstores⟩ :=
      get_balance_cases d t2 u hmax hr hEs
    rw [currentExact_some he t2] at hgets
    -- the first read at t1
    have hE1 : ∀ e', d.users u = some e' → i64Range e'.balance ∧
        (t1 - e'.last_balance_update) * d.balance_per_second < 2 ^ 128 ∧
        i64Range (e'.balance +
          ((t1 - e'.last_balance_update) * d.balance_per_second / 1000 : Nat)) := by
      intro e' he'
      rw [he] at he'
      injection he' with h'
      subst h'
      exact ⟨hb, hprod1, ⟨by have := hb.1; linarith, by linarith⟩⟩
    obtain ⟨d1, hget1, hm1, hrt1, hfull1, hstore1⟩ :=
      get_balance_cases d t1 u hmax hr hE1
    rw [currentExact_some he t1] at hget1 hfull1 hstore1
    by_cases hc : d.max_balance ≤ e.balance +
        (((t1 - e.last_balance_update) * d.balance_per_second / 1000 : Nat) : Int)
    · -- first read clamps: entry removed, second read returns max; single read also clamps
      rw [if_pos hc] at hget1
      obtain ⟨d2, hget2, -, -, -⟩ :=
        get_balance_after_removal (by rw [hm1]; exact hmax) (hfull1 hc) t2
      rw [hm1] at hget2
      have hcs : d.max_balance ≤ e.balance +
          (((t2 - e.last_balance_update) * d.balance_per_second / 1000 : Nat) : Int) := by
        linarith
      rw [if_pos hcs] at hgets
      exact ⟨d1, _, d2, _, ds, _, hget1, hget2, hgets, le_rfl⟩
    · -- first read stores; second read accrues only the remainder interval
      rw [if_neg hc] at hget1
      have hcns := not_le.mp hc
      have hst := hstore1 hcns
      have hE2 : ∀ e', d1.users u = some e' → i64Range e'.balance ∧
          (t2 - e'.last_balance_update) * d1.balance_per_second < 2 ^ 128 ∧
          i64Range (e'.balance +
            ((t2 - e'.last_balance_update) * d1.balance_per_second / 1000 : Nat)) := by
        intro e' he'
        rw [hst] at he'
        injection he' with h'
        subst h'
        dsimp only
        rw [hrt1]
        refine ⟨⟨by have := hb.1; linarith, lt_trans hcns hmax.2⟩, hprod2,
          ⟨by have := hb.1; linarith, by linarith⟩⟩
      obtain ⟨d2, hget2, hm2, hrt2, hfull2, hstore2⟩ :=
        get_balance_cases d1 t2 u (by rw [hm1]; exact hmax)
          (by rw [hrt1]; exact hr) hE2
      have hcur2 : currentExact d1 t2 u = e.balance +
          (((t1 - e.last_balance_update) * d.balance_per_second / 1000 : Nat) : Int) +
          (((t2 - t1) * d.balance_per_second / 1000 : Nat) : Int) := by
        rw [currentExact_some hst t2]
        dsimp only
        rw [hrt1]
      rw [hcur2, hm1] at hget2
      by_cases hc2 : d.max_balance ≤ e.balance +
          (((t1 - e.last_balance_update) * d.balance_per_second / 1000 : Nat) : Int) +
          (((t2 - t1) * d.balance_per_second / 1000 : Nat) : Int)
      · -- two-read path clamps at t2; so does the single read
        rw [if_pos hc2] at hget2
        have hcs : d.max_balance ≤ e.balance +
            (((t2 - e.last_balance_update) * d.balance_per_second / 1000 : Nat) : Int) := by
          linarith
        rw [if_pos hcs] at hgets
        exact ⟨d1, _, d2, _, ds, _, hget1, hget2, hgets, le_rfl⟩
      · rw [if_neg hc2] at hget2
        by_cases hcs : d.max_balance ≤ e.balance +
            (((t2 - e.last_balance_update) * d.balance_per_second / 1000 : Nat) : Int)
        · rw [if_pos hcs] at hgets
          exact ⟨d1, _, d2, _, ds, _, hget1, hget2, hgets,
            le_of_lt (not_le.mp hc2)⟩
        · rw [if_neg hcs] at hgets
          exact ⟨d1, _, d2, _, ds, _, hget1, hget2, hgets, by linarith⟩
  · intro p hp
    unfold get_accumulated_balance
    rw [wrapU128_eq_self (lt_trans hp (by norm_num))]
    exact Nat.div_eq_of_lt hp

/-- Claim C10 (amended, witness): max 100, rate 1000/s, user 0 stored at
balance 5 at instant 0; reads at 10 then 20 ms end no higher than the single
read at 20 ms, and a zero-length spacing accrues zero coins. -/
theorem c10_split_reads_never_gain_in_range_witness :
    (∃ d1 r1 d2 r2 ds rs,
      dSmallMax5.get_balance 10 0 = some (d1, r1) ∧
      d1.get_balance 20 0 = some (d2, r2) ∧
      dSmallMax5.get_balance 20 0 = some (ds, rs) ∧ r2 ≤ rs) ∧
    get_accumulated_balance 0 dSmallMax5.balance_per_second = 0 := by
  have h := c10_split_reads_never_gain_in_range dSmallMax5 0 ⟨5, 0⟩ 10 20
    (by decide) (by decide) (by decide) (by decide) (by decide) (by decide)
    (by decide) (by decide)
  exact ⟨h.1, h.2 0 (by decide)⟩

/-- Claim C9: an unauthenticated request (no user) always passes
`check_request_balance`, whatever the local counter — including zero and
negative values. -/
theorem c9_no_user_always_ok : ∀ c : Int,
    check_request_balance none c = Except.ok () :=
  fun _ => rfl
